import Mathlib

/-!
Verification of the rank-movement and snapshot-history engine of the
rank-check repository, shallowly embedded from the JavaScript sources
(`index.js`, `24hr_check.js`, `working_redGreen.js` and the unnamed parts).
Maps keyed by JavaScript object properties are modelled as association
lists over `String`; JavaScript falsiness of `0`, `""`, `undefined` in the
`x || d` idiom is modelled explicitly.
-/

namespace RankCheck

/-- Movement classification: the enum of strings "up" / "down" / "same". -/
inductive Movement where
  | up
  | down
  | same
deriving DecidableEq, Repr

/-- JavaScript `v || dflt` for a numeric lookup result: `undefined` and `0`
are falsy and yield the default. -/
def jsOrDefault (v : Option Nat) (dflt : Nat) : Nat :=
  match v with
  | none => dflt
  | some n => if n = 0 then dflt else n

/-- JavaScript `v || dflt` for a string lookup result: `undefined` and the
empty string are falsy and yield the default. -/
def jsOrDefaultStr (v : Option String) (dflt : String) : String :=
  match v with
  | none => dflt
  | some s => if s = "" then dflt else s

/-- JavaScript property-key coercion: using `undefined` as an object key
coerces it to the string "undefined". -/
def jsKey (id : Option String) : String :=
  match id with
  | none => "undefined"
  | some s => s

/-- Lookup in a JavaScript-object model (association list, unique keys). -/
def objGet (m : List (String × α)) (k : String) : Option α :=
  m.lookup k

/-- Assignment `m[k] = v` in a JavaScript-object model: replaces the
binding in place when the key is present, otherwise appends it. -/
def objSet (m : List (String × α)) (k : String) (v : α) : List (String × α) :=
  match m with
  | [] => [(k, v)]
  | (k₀, v₀) :: rest => if k₀ = k then (k, v) :: rest else (k₀, v₀) :: objSet rest k v

/-- A fetched collection record, restricted to the fields the engine
consumes. Both may be absent in the upstream payload. -/
structure Collection where
  id : Option String
  name : Option String
deriving DecidableEq, Repr

/-- The movement computation (index.js lines 145-154, part_001
`getRankMovement` lines 35-41): `previousRank = previousRankings[id] || 101`,
then compare with the current rank. -/
def getRankMovement (currentRank : Nat) (referenceRank : Option Nat) : Movement :=
  let previousRank := jsOrDefault referenceRank 101
  if currentRank < previousRank then Movement.up
  else if previousRank < currentRank then Movement.down
  else Movement.same

/-- Sticky-color resolution (index.js line 156, working_redGreen.js lines
115-123): up is green, down is red, same keeps `previousColors[id] || 'red'`. -/
def resolveColor (movement : Movement) (previousColor : Option String) : String :=
  match movement with
  | Movement.up => "green"
  | Movement.down => "red"
  | Movement.same => jsOrDefaultStr previousColor "red"

/-- Color evolution across cycles: each cycle resolves the color from the
movement and the color stored by the previous cycle. -/
def colorSequence (ms : List Movement) (prev : Option String) : List String :=
  match ms with
  | [] => []
  | m :: rest =>
    let c := resolveColor m prev
    c :: colorSequence rest (some c)

/-- C1: for every current rank in [1,100] and reference rank in [1,101] or
absent (absent resolving to the sentinel 101), the movement computation
returns up iff currentRank < referenceRank, down iff currentRank >
referenceRank, and same iff they are equal. Totality and determinism hold
because `getRankMovement` is a Lean function. -/
theorem getRankMovement_spec (c : Nat) (r : Option Nat)
    (_hc : 1 ≤ c ∧ c ≤ 100)
    (_hr : r = none ∨ ∃ v, r = some v ∧ 1 ≤ v ∧ v ≤ 101) :
    (getRankMovement c r = Movement.up ↔ c < jsOrDefault r 101) ∧
    (getRankMovement c r = Movement.down ↔ jsOrDefault r 101 < c) ∧
    (getRankMovement c r = Movement.same ↔ c = jsOrDefault r 101) := by
  unfold getRankMovement
  rcases lt_trichotomy c (jsOrDefault r 101) with h | h | h
  · simp [h, not_lt.mpr (le_of_lt h)]
    omega
  · simp [h, lt_irrefl]
  · simp [not_lt.mpr (le_of_lt h), h]
    omega

/-- Witness for `getRankMovement_spec` at current rank 1 and absent
reference rank. -/
theorem getRankMovement_spec_witness :
    ((1 ≤ 1 ∧ 1 ≤ 100) ∧
      ((none : Option Nat) = none ∨ ∃ v, (none : Option Nat) = some v ∧ 1 ≤ v ∧ v ≤ 101)) ∧
    ((getRankMovement 1 none = Movement.up ↔ 1 < jsOrDefault none 101) ∧
      (getRankMovement 1 none = Movement.down ↔ jsOrDefault none 101 < 1) ∧
      (getRankMovement 1 none = Movement.same ↔ 1 = jsOrDefault none 101)) :=
  ⟨⟨by decide, Or.inl rfl⟩, getRankMovement_spec 1 none ⟨by decide, by decide⟩ (Or.inl rfl)⟩

/-- A ranking snapshot (24hr_check.js): an epoch-seconds timestamp and the
id-to-rank mapping of a completed cycle. -/
structure Snapshot where
  timestamp : Int
  rankings : List (String × Nat)
deriving DecidableEq, Repr

/-- The scan of `getPreviousRankings` (24hr_check.js lines 56-62): walk the
history keeping the snapshot with the strictly smallest absolute distance
to the target time. -/
def scanClosest (targetTime : Int) : List Snapshot → Snapshot → Int → Snapshot × Int
  | [], closest, minDiff => (closest, minDiff)
  | s :: rest, closest, minDiff =>
    let diff := |s.timestamp - targetTime|
    if diff < minDiff then scanClosest targetTime rest s diff
    else scanClosest targetTime rest closest minDiff

/-- `getPreviousRankings` (24hr_check.js lines 49-69): null on empty
history; otherwise scan the whole history (seeded with its head) for the
snapshot closest to the target time, and return its rankings when the
minimal distance is at most 3600 seconds, null otherwise. -/
def getPreviousRankings (history : List Snapshot) (targetTime : Int) :
    Option (List (String × Nat)) :=
  match history with
  | [] => none
  | s₀ :: rest =>
    let init := |s₀.timestamp - targetTime|
    let r := scanClosest targetTime (s₀ :: rest) s₀ init
    if r.2 ≤ 3600 then some r.1.rankings else none

/-- Invariant of the closest-snapshot scan: the result carries its own
distance, never exceeds the seed distance, is minimal over the scanned
list, and is either the seed or the first element of the list strictly
better than both the seed and everything before it. -/
theorem scanClosest_invariant (targetTime : Int) (l : List Snapshot) (c : Snapshot) (d : Int)
    (hd : d = |c.timestamp - targetTime|) :
    (scanClosest targetTime l c d).2 = |(scanClosest targetTime l c d).1.timestamp - targetTime| ∧
    (scanClosest targetTime l c d).2 ≤ d ∧
    (∀ s ∈ l, (scanClosest targetTime l c d).2 ≤ |s.timestamp - targetTime|) ∧
    ((scanClosest targetTime l c d).1 = c ∨
      ∃ l₁ l₂, l = l₁ ++ (scanClosest targetTime l c d).1 :: l₂ ∧
        (∀ s ∈ l₁, (scanClosest targetTime l c d).2 < |s.timestamp - targetTime|) ∧
        (scanClosest targetTime l c d).2 < d) := by
  induction l generalizing c d with
  | nil =>
    refine ⟨hd, le_refl d, by simp, Or.inl rfl⟩
  | cons s rest ih =>
    by_cases h : |s.timestamp - targetTime| < d
    · have hstep : scanClosest targetTime (s :: rest) c d =
        scanClosest targetTime rest s |s.timestamp - targetTime| := by
        simp [scanClosest, h]
      rw [hstep]
      obtain ⟨h1, h2, h3, h4⟩ := ih s |s.timestamp - targetTime| rfl
      refine ⟨h1, le_of_lt (lt_of_le_of_lt h2 h), ?_, ?_⟩
      · intro x hx
        rcases List.mem_cons.mp hx with hx | hx
        · subst hx; exact h2
        · exact h3 x hx
      · rcases h4 with h4 | ⟨l₁, l₂, hsplit, hstrict, hlt⟩
        · refine Or.inr ⟨[], rest, ?_, by simp, ?_⟩
          · simp [h4]
          · rw [h1, h4]; exact h
        · refine Or.inr ⟨s :: l₁, l₂, by rw [List.cons_append, ← hsplit], ?_, lt_trans hlt h⟩
          intro x hx
          rcases List.mem_cons.mp hx with hx | hx
          · subst hx; exact hlt
          · exact hstrict x hx
    · have hstep : scanClosest targetTime (s :: rest) c d =
        scanClosest targetTime rest c d := by
        simp [scanClosest, h]
      rw [hstep]
      obtain ⟨h1, h2, h3, h4⟩ := ih c d hd
      refine ⟨h1, h2, ?_, ?_⟩
      · intro x hx
        rcases List.mem_cons.mp hx with hx | hx
        · subst hx; exact le_trans h2 (not_lt.mp h)
        · exact h3 x hx
      · rcases h4 with h4 | ⟨l₁, l₂, hsplit, hstrict, hlt⟩
        · exact Or.inl h4
        · refine Or.inr ⟨s :: l₁, l₂, by rw [List.cons_append, ← hsplit], ?_, hlt⟩
          intro x hx
          rcases List.mem_cons.mp hx with hx | hx
          · subst hx; exact lt_of_lt_of_le hlt (not_lt.mp h)
          · exact hstrict x hx

/-- C2: on empty history the lookup is absent; on non-empty history there
is a snapshot minimizing the absolute distance to the target time, with
every snapshot before it in iteration order strictly farther (first
encountered wins on ties), whose rankings are returned when the minimal
distance is at most 3600 seconds, absence being returned when it exceeds
3600 seconds. -/
theorem getPreviousRankings_spec (history : List Snapshot) (targetTime : Int)
    (hne : history ≠ []) :
    getPreviousRankings [] targetTime = none ∧
    ∃ s l₁ l₂, history = l₁ ++ s :: l₂ ∧
      (∀ x ∈ history, |s.timestamp - targetTime| ≤ |x.timestamp - targetTime|) ∧
      (∀ x ∈ l₁, |s.timestamp - targetTime| < |x.timestamp - targetTime|) ∧
      (|s.timestamp - targetTime| ≤ 3600 →
        getPreviousRankings history targetTime = some s.rankings) ∧
      (3600 < |s.timestamp - targetTime| →
        getPreviousRankings history targetTime = none) := by
  refine ⟨rfl, ?_⟩
  match history with
  | [] => exact absurd rfl hne
  | s₀ :: rest =>
    obtain ⟨h1, h2, h3, h4⟩ :=
      scanClosest_invariant targetTime (s₀ :: rest) s₀ |s₀.timestamp - targetTime| rfl
    set r := scanClosest targetTime (s₀ :: rest) s₀ |s₀.timestamp - targetTime| with hr
    have heval : getPreviousRankings (s₀ :: rest) targetTime =
        if r.2 ≤ 3600 then some r.1.rankings else none := by
      simp [getPreviousRankings, hr]
    rcases h4 with h4 | ⟨l₁, l₂, hsplit, hstrict, _⟩
    · refine ⟨r.1, [], rest, by simp [h4], ?_, by simp, ?_, ?_⟩
      · intro x hx
        rw [← h1]; exact h3 x hx
      · intro hle
        rw [heval, if_pos (h1.trans_le hle)]
      · intro hgt
        rw [heval, if_neg (not_le.mpr (by rw [h1]; exact hgt))]
    · refine ⟨r.1, l₁, l₂, hsplit, ?_, ?_, ?_, ?_⟩
      · intro x hx
        rw [← h1]; exact h3 x hx
      · intro x hx
        rw [← h1]; exact hstrict x hx
      · intro hle
        rw [heval, if_pos (h1.trans_le hle)]
      · intro hgt
        rw [heval, if_neg (not_le.mpr (by rw [h1]; exact hgt))]

/-- Witness for `getPreviousRankings_spec` on a one-snapshot history. -/
theorem getPreviousRankings_spec_witness :
    ([(⟨0, [("a", 5)]⟩ : Snapshot)] ≠ []) ∧
    (getPreviousRankings [] 100 = none ∧
      ∃ s l₁ l₂, [(⟨0, [("a", 5)]⟩ : Snapshot)] = l₁ ++ s :: l₂ ∧
        (∀ x ∈ [(⟨0, [("a", 5)]⟩ : Snapshot)],
          |s.timestamp - 100| ≤ |x.timestamp - 100|) ∧
        (∀ x ∈ l₁, |s.timestamp - 100| < |x.timestamp - 100|) ∧
        (|s.timestamp - 100| ≤ 3600 →
          getPreviousRankings [(⟨0, [("a", 5)]⟩ : Snapshot)] 100 = some s.rankings) ∧
        (3600 < |s.timestamp - 100| →
          getPreviousRankings [(⟨0, [("a", 5)]⟩ : Snapshot)] 100 = none)) :=
  ⟨by simp, getPreviousRankings_spec [⟨0, [("a", 5)]⟩] 100 (by simp)⟩

/-- Movement in the rolling-history variant (24hr_check.js lines 120-130):
defaults to same, and only when a reference mapping was found compares
`previousRankings[id] || 101` against the current rank. -/
def movement24 (previousRankings : Option (List (String × Nat))) (key : String)
    (currentRank : Nat) : Movement :=
  match previousRankings with
  | none => Movement.same
  | some prev => getRankMovement currentRank (objGet prev key)

/-- The movement a collection receives in a 24hr_check.js cycle started at
time now (lines 111-130): the reference is the history snapshot nearest to
now - 24*3600, and absence of a usable reference yields same. -/
def movementFromHistory (history : List Snapshot) (now : Int) (key : String)
    (currentRank : Nat) : Movement :=
  movement24 (getPreviousRankings history (now - 24 * 3600)) key currentRank

/-- Pruning (24hr_check.js lines 152-154): keep exactly the snapshots with
timestamp at least now - 25*3600. -/
def prune (history : List Snapshot) (now : Int) : List Snapshot :=
  history.filter fun s => now - 25 * 3600 ≤ s.timestamp

/-- The rankings object of a new snapshot (24hr_check.js lines 147-149):
`rankings[collection.id] = index + 1` over the fetched list in order. -/
def buildRankings (collections : List Collection) : List (String × Nat) :=
  (collections.enum).foldl (fun acc p => objSet acc (jsKey p.2.id) (p.1 + 1)) []

/-- The snapshot appended at the end of a cycle (24hr_check.js lines
143-149): the cycle start time and the fresh rankings. -/
def mkSnapshot (now : Int) (collections : List Collection) : Snapshot :=
  { timestamp := now, rankings := buildRankings collections }

/-- History update at the end of a 24hr_check.js cycle (lines 142-157):
append the new snapshot, then prune with cutoff now - 25*3600. -/
def updateHistory (history : List Snapshot) (now : Int)
    (collections : List Collection) : List Snapshot :=
  prune (history ++ [mkSnapshot now collections]) now

/-- A rendered image of the rolling-history variant, keyed by rank and
carrying the movement and display name drawn on it. -/
structure Image24 where
  tokenId : Nat
  movement : Movement
  name : String
deriving DecidableEq, Repr

/-- The processing loop of 24hr_check.js (lines 116-140): a fixed 100
iterations; reading a position beyond the fetched list dereferences
undefined and throws, aborting the cycle. -/
def loop24 (previousRankings : Option (List (String × Nat)))
    (fetched : List Collection) :
    List Nat → List Image24 → List Image24 × Except String Unit
  | [], imgs => (imgs, Except.ok ())
  | i :: rest, imgs =>
    match fetched[i]? with
    | none => (imgs, Except.error "TypeError")
    | some c =>
      let tokenId := i + 1
      let movement := movement24 previousRankings (jsKey c.id) tokenId
      let name := jsOrDefaultStr c.name "Unknown"
      loop24 previousRankings fetched rest (imgs ++ [⟨tokenId, movement, name⟩])

/-- The 24hr_check.js update cycle (lines 96-158) on a completed fetch:
abort on an empty fetch leaving the persisted history unchanged, otherwise
render the 100 images against the nearest-snapshot reference and persist
the appended-and-pruned history. The second component is the persisted
history after the cycle (an error marks an aborted cycle that wrote no
history). -/
def updateRankings24 (fetched : List Collection) (history : List Snapshot)
    (now : Int) : List Image24 × Except String (List Snapshot) :=
  if fetched.length = 0 then ([], Except.ok history)
  else
    match loop24 (getPreviousRankings history (now - 24 * 3600)) fetched (List.range 100) [] with
    | (imgs, Except.error e) => (imgs, Except.error e)
    | (imgs, Except.ok _) => (imgs, Except.ok (updateHistory history now fetched))

/-- C3 counterexample: with no persisted reference state (empty history),
the rolling-history variant classifies a collection at rank 1 as same, not
up. -/
theorem movementFromHistory_empty_not_up :
    movementFromHistory [] 0 "a" 1 ≠ Movement.up := by
  decide

/-- C3 amended: with lost persisted state the last-cycle variant (empty
previous-rankings mapping) classifies every collection in [1,100] as up,
while the rolling-history variant (empty history) classifies every
collection as same; a collection absent from a present reference mapping
always resolves to up. -/
theorem absentReference_movement (key : String) (rank : Nat)
    (prev : List (String × Nat)) (now : Int)
    (h1 : 1 ≤ rank) (h2 : rank ≤ 100) :
    getRankMovement rank (objGet ([] : List (String × Nat)) key) = Movement.up ∧
    movementFromHistory [] now key rank = Movement.same ∧
    (objGet prev key = none → movement24 (some prev) key rank = Movement.up) := by
  have hup : getRankMovement rank none = Movement.up := by
    have hlt : rank < 101 := by omega
    simp [getRankMovement, jsOrDefault, hlt]
  refine ⟨?_, rfl, ?_⟩
  · have hnil : objGet ([] : List (String × Nat)) key = none := rfl
    rw [hnil, hup]
  · intro h
    simp only [movement24, h, hup]

/-- Witness for `absentReference_movement` at rank 1 with a reference
mapping that does not bind the key. -/
theorem absentReference_movement_witness :
    (1 ≤ 1 ∧ 1 ≤ 100) ∧
    (getRankMovement 1 (objGet ([] : List (String × Nat)) "a") = Movement.up ∧
      movementFromHistory [] 0 "a" 1 = Movement.same ∧
      (objGet [("b", 2)] "a" = none → movement24 (some [("b", 2)]) "a" 1 = Movement.up)) :=
  ⟨⟨by decide, by decide⟩, absentReference_movement "a" 1 [("b", 2)] 0 (by decide) (by decide)⟩

/-- C7: pruning keeps exactly the snapshots with timestamp at least
now - 25*3600, preserving their order; in particular snapshots at t-26h,
t-20h and t-1h pruned at time t leave the t-20h and t-1h ones. -/
theorem prune_spec (history : List Snapshot) (now t : Int)
    (r₁ r₂ r₃ : List (String × Nat)) :
    (∀ s ∈ prune history now, now - 25 * 3600 ≤ s.timestamp) ∧
    (∀ s ∈ history, now - 25 * 3600 ≤ s.timestamp → s ∈ prune history now) ∧
    (prune history now).Sublist history ∧
    prune [⟨t - 26 * 3600, r₁⟩, ⟨t - 20 * 3600, r₂⟩, ⟨t - 3600, r₃⟩] t =
      [⟨t - 20 * 3600, r₂⟩, ⟨t - 3600, r₃⟩] := by
  refine ⟨?_, ?_, List.filter_sublist _, ?_⟩
  · intro s hs
    exact of_decide_eq_true (List.mem_filter.mp hs).2
  · intro s hs h
    exact List.mem_filter.mpr ⟨hs, decide_eq_true h⟩
  · simp only [prune, List.filter_cons, List.filter_nil, decide_eq_true_eq]
    rw [if_neg (by omega), if_pos (by omega), if_pos (by omega)]

/-- C10: a successfully completed rolling-history cycle persists exactly
the appended-then-pruned history; the new snapshot (timestamped with the
cycle start time) survives the prune, so the persisted history is
non-empty and every snapshot in it has timestamp at least now - 25*3600. -/
theorem updateHistory_spec (history : List Snapshot) (now : Int)
    (fetched : List Collection) (saved : List Snapshot)
    (hne : fetched ≠ [])
    (hok : (updateRankings24 fetched history now).2 = Except.ok saved) :
    saved = updateHistory history now fetched ∧
    mkSnapshot now fetched ∈ saved ∧
    saved ≠ [] ∧
    ∀ s ∈ saved, now - 25 * 3600 ≤ s.timestamp := by
  have hlen : ¬ (fetched.length = 0) := by
    simpa [List.length_eq_zero] using hne
  have hsaved : saved = updateHistory history now fetched := by
    unfold updateRankings24 at hok
    rw [if_neg hlen] at hok
    split at hok
    · exact absurd hok (by simp)
    · rename_i heq
      exact (Except.ok.inj hok).symm
  have hmem : mkSnapshot now fetched ∈ updateHistory history now fetched := by
    refine List.mem_filter.mpr ⟨List.mem_append_right _ (by simp), decide_eq_true ?_⟩
    show now - 25 * 3600 ≤ now
    omega
  rw [hsaved]
  refine ⟨rfl, hmem, List.ne_nil_of_mem hmem, ?_⟩
  intro s hs
  exact of_decide_eq_true (List.mem_filter.mp hs).2

/-- A 100-record fetch used to exercise a completed rolling-history cycle. -/
def fetched100 : List Collection :=
  List.replicate 100 { id := some "k", name := none }

/-- Witness for `updateHistory_spec` on a full 100-record fetch against an
empty history at time 0. -/
theorem updateHistory_spec_witness :
    (fetched100 ≠ [] ∧
      (updateRankings24 fetched100 [] 0).2 = Except.ok (updateHistory [] 0 fetched100)) ∧
    (updateHistory [] 0 fetched100 = updateHistory [] 0 fetched100 ∧
      mkSnapshot 0 fetched100 ∈ updateHistory [] 0 fetched100 ∧
      updateHistory [] 0 fetched100 ≠ [] ∧
      ∀ s ∈ updateHistory [] 0 fetched100, 0 - 25 * 3600 ≤ s.timestamp) :=
  ⟨⟨by decide, by rfl⟩,
    updateHistory_spec [] 0 fetched100 (updateHistory [] 0 fetched100) (by decide) (by rfl)⟩

/-- A rendered image of the color variants, keyed by rank and carrying the
resolved sticky color and display name drawn on it. -/
structure RenderedImage where
  tokenId : Nat
  color : String
  name : String
deriving DecidableEq, Repr

/-- The state owned by the index.js variant: the two persisted mappings and
the in-memory latest-collections cache. -/
structure IndexState where
  prevRankings : List (String × Nat)
  prevColors : List (String × String)
  latest : List Collection
deriving DecidableEq, Repr

/-- The processing loop of index.js (lines 136-169): iterate over the first
min(length, 100) positions, skipping a record whose identity field is
falsy (absent or the empty string), and accumulate new rankings, new
colors and rendered images. -/
def idxLoop (prevR : List (String × Nat)) (prevC : List (String × String))
    (fetched : List Collection) :
    List Nat → List (String × Nat) → List (String × String) → List RenderedImage →
    List (String × Nat) × List (String × String) × List RenderedImage
  | [], accR, accC, imgs => (accR, accC, imgs)
  | i :: rest, accR, accC, imgs =>
    match fetched[i]? with
    | none => idxLoop prevR prevC fetched rest accR accC imgs
    | some c =>
      match c.id with
      | none => idxLoop prevR prevC fetched rest accR accC imgs
      | some cid =>
        if cid = "" then idxLoop prevR prevC fetched rest accR accC imgs
        else
          let tokenId := i + 1
          let movement := getRankMovement tokenId (objGet prevR cid)
          let color := resolveColor movement (objGet prevC cid)
          let name := jsOrDefaultStr c.name "Unknown"
          idxLoop prevR prevC fetched rest (objSet accR cid tokenId)
            (objSet accC cid color) (imgs ++ [⟨tokenId, color, name⟩])

/-- The index.js update cycle (lines 109-173): on an empty fetch clear the
in-memory cache and return with the persisted mappings untouched;
otherwise process min(length, 100) records, replace the cache with the
fetched list and overwrite both persisted mappings wholesale. -/
def updateRankingsIndex (fetched : List Collection) (st : IndexState) :
    IndexState × List RenderedImage :=
  if fetched.length = 0 then ({ st with latest := [] }, [])
  else
    match idxLoop st.prevRankings st.prevColors fetched
        (List.range (min fetched.length 100)) [] [] [] with
    | (newR, newC, imgs) =>
      ({ prevRankings := newR, prevColors := newC, latest := fetched }, imgs)

/-- The processing loop of working_redGreen.js (lines 99-137): a fixed 100
iterations with no guard; a position beyond the fetched list dereferences
undefined and throws, and an absent identity field is coerced to the
object key "undefined". Images are written during the loop; the mappings
are persisted only if the loop completes. -/
def rgLoop (prevR : List (String × Nat)) (prevC : List (String × String))
    (fetched : List Collection) :
    List Nat → List (String × Nat) → List (String × String) → List RenderedImage →
    List RenderedImage × Except String (List (String × Nat) × List (String × String))
  | [], accR, accC, imgs => (imgs, Except.ok (accR, accC))
  | i :: rest, accR, accC, imgs =>
    match fetched[i]? with
    | none => (imgs, Except.error "TypeError")
    | some c =>
      let tokenId := i + 1
      let cid := jsKey c.id
      let movement := getRankMovement tokenId (objGet prevR cid)
      let color := resolveColor movement (objGet prevC cid)
      let name := jsOrDefaultStr c.name "Unknown"
      rgLoop prevR prevC fetched rest (objSet accR cid tokenId)
        (objSet accC cid color) (imgs ++ [⟨tokenId, color, name⟩])

/-- The working_redGreen.js update cycle (lines 72-142): return on an
empty fetch leaving the persisted mappings untouched, otherwise run the
fixed 100-iteration loop; the written images are reported even when the
loop aborts, the new mappings only on completion. -/
def updateRankingsRG (fetched : List Collection) (prevR : List (String × Nat))
    (prevC : List (String × String)) :
    List RenderedImage × Except String (List (String × Nat) × List (String × String)) :=
  if fetched.length = 0 then ([], Except.ok (prevR, prevC))
  else rgLoop prevR prevC fetched (List.range 100) [] [] []

/-- The not-found guard of the index.js metadata endpoint (line 177):
`tokenId < 1 || tokenId > latestCollections.length || !latestCollections.length`. -/
def metadataNotFoundIdx (tokenId : Int) (latestCount : Nat) : Bool :=
  decide (tokenId < 1) || decide ((latestCount : Int) < tokenId) || decide (latestCount = 0)

/-- The not-found guard of the 24hr_check.js metadata endpoint (line 163):
`tokenId < 1 || tokenId > 100`, independent of any fetched data. -/
def metadataNotFound24 (tokenId : Int) : Bool :=
  decide (tokenId < 1) || decide ((100 : Int) < tokenId)

/-- C4 counterexample: a zero-collection fetch in index.js resets the
in-memory latest-collections cache, so the state is not left unchanged
when the cache was non-empty. -/
theorem updateRankingsIndex_empty_changes_state :
    (updateRankingsIndex []
        { prevRankings := [("a", 1)], prevColors := [("a", "green")],
          latest := [{ id := some "a", name := some "A" }] }).1 ≠
      { prevRankings := [("a", 1)], prevColors := [("a", "green")],
        latest := [{ id := some "a", name := some "A" }] } := by
  decide

/-- C4 amended: a zero-collection fetch writes no images and leaves every
persisted mapping (and, in the rolling-history variant, the history)
unchanged; the index.js variant additionally resets its in-memory cache to
empty. -/
theorem emptyFetch_aborts (st : IndexState) (history : List Snapshot) (now : Int)
    (pR : List (String × Nat)) (pC : List (String × String)) :
    (updateRankingsIndex [] st).1.prevRankings = st.prevRankings ∧
    (updateRankingsIndex [] st).1.prevColors = st.prevColors ∧
    (updateRankingsIndex [] st).1.latest = [] ∧
    (updateRankingsIndex [] st).2 = [] ∧
    updateRankings24 [] history now = ([], Except.ok history) ∧
    updateRankingsRG [] pR pC = ([], Except.ok (pR, pC)) :=
  ⟨rfl, rfl, rfl, rfl, rfl, rfl⟩

/-- C5: on a one-collection fetch the working_redGreen.js cycle writes the
rank-1 image and then throws reading position 1, persisting nothing, while
the index.js cycle processes exactly the one returned record. -/
theorem shortList_crash_rg :
    updateRankingsRG [{ id := some "a", name := some "A" }] [] [] =
      ([⟨1, "green", "A"⟩], Except.error "TypeError") ∧
    updateRankingsIndex [{ id := some "a", name := some "A" }]
        { prevRankings := [], prevColors := [], latest := [] } =
      ({ prevRankings := [("a", 1)], prevColors := [("a", "green")],
          latest := [{ id := some "a", name := some "A" }] },
        [⟨1, "green", "A"⟩]) :=
  ⟨rfl, rfl⟩

/-- C6: sticky-color resolution maps up to green and down to red, keeps a
present previous color on same (defaulting to red when none), and the
movement sequence up, same, same, down, same from no stored color yields
green, green, green, red, red. -/
theorem resolveColor_spec (pc : Option String) (c : String) (hc : c ≠ "") :
    resolveColor Movement.up pc = "green" ∧
    resolveColor Movement.down pc = "red" ∧
    resolveColor Movement.same (some c) = c ∧
    resolveColor Movement.same none = "red" ∧
    colorSequence [Movement.up, Movement.same, Movement.same, Movement.down, Movement.same]
        none = ["green", "green", "green", "red", "red"] := by
  refine ⟨rfl, rfl, ?_, rfl, rfl⟩
  simp [resolveColor, jsOrDefaultStr, hc]

/-- Witness for `resolveColor_spec` with stored color green. -/
theorem resolveColor_spec_witness :
    ("green" ≠ "") ∧
    (resolveColor Movement.up none = "green" ∧
      resolveColor Movement.down none = "red" ∧
      resolveColor Movement.same (some "green") = "green" ∧
      resolveColor Movement.same none = "red" ∧
      colorSequence [Movement.up, Movement.same, Movement.same, Movement.down, Movement.same]
        none = ["green", "green", "green", "red", "red"]) :=
  ⟨by decide, resolveColor_spec none "green" (by decide)⟩

/-- C9 counterexample: with no data fetched yet (known count 0) the
24hr_check.js guard still serves rank 1 (no not-found), although the
claimed condition (rank outside [1,0] or no data) requires not-found, as
the index.js guard does. -/
theorem metadataNotFound24_ignores_data :
    metadataNotFound24 1 = false ∧ metadataNotFoundIdx 1 0 = true := by
  decide

/-- C9 amended: the index.js guard returns not-found exactly when the
integer rank is outside [1, known count] or the count is zero; the
24hr_check.js guard returns not-found exactly when the rank is outside
[1,100], independent of fetched data. -/
theorem metadataNotFound_spec (t : Int) (n : Nat) :
    (metadataNotFoundIdx t n = true ↔ (t < 1 ∨ (n : Int) < t ∨ n = 0)) ∧
    (metadataNotFound24 t = true ↔ (t < 1 ∨ (100 : Int) < t)) := by
  constructor <;> simp [metadataNotFoundIdx, metadataNotFound24, or_assoc]

/-- The image the index.js loop produces at position i, if any: none when
the position is missing or the identity field is falsy, otherwise the
image keyed by rank i+1 with the resolved sticky color and display name. -/
def renderAt (prevR : List (String × Nat)) (prevC : List (String × String))
    (fetched : List Collection) (i : Nat) : Option RenderedImage :=
  match fetched[i]? with
  | none => none
  | some c =>
    match c.id with
    | none => none
    | some cid =>
      if cid = "" then none
      else
        some ⟨i + 1,
          resolveColor (getRankMovement (i + 1) (objGet prevR cid)) (objGet prevC cid),
          jsOrDefaultStr c.name "Unknown"⟩

/-- The images accumulated by the index.js loop are exactly the per-position
renders of the visited indices, in order. -/
theorem idxLoop_images (prevR : List (String × Nat)) (prevC : List (String × String))
    (fetched : List Collection) (is : List Nat) (accR : List (String × Nat))
    (accC : List (String × String)) (imgs : List RenderedImage) :
    (idxLoop prevR prevC fetched is accR accC imgs).2.2 =
      imgs ++ is.filterMap (renderAt prevR prevC fetched) := by
  induction is generalizing accR accC imgs with
  | nil => simp [idxLoop]
  | cons i rest ih =>
    cases hf : fetched[i]? with
    | none => simp [idxLoop, hf, renderAt, List.filterMap_cons, ih]
    | some c =>
      cases hid : c.id with
      | none => simp [idxLoop, hf, hid, renderAt, List.filterMap_cons, ih]
      | some cid =>
        by_cases hcid : cid = ""
        · simp [idxLoop, hf, hid, hcid, renderAt, List.filterMap_cons, ih]
        · simp [idxLoop, hf, hid, hcid, renderAt, List.filterMap_cons, ih]

/-- A rendered image produced at position i is keyed by rank i+1. -/
theorem renderAt_tokenId (prevR : List (String × Nat)) (prevC : List (String × String))
    (fetched : List Collection) (i : Nat) (img : RenderedImage)
    (h : renderAt prevR prevC fetched i = some img) : img.tokenId = i + 1 := by
  unfold renderAt at h
  split at h
  · exact absurd h (by simp)
  · split at h
    · exact absurd h (by simp)
    · split at h
      · exact absurd h (by simp)
      · cases h
        rfl

/-- Every binding of an object after an assignment is either the assigned
binding or one of the object before it. -/
theorem mem_objSet {α : Type} (m : List (String × α)) (k : String) (v : α)
    (p : String × α) (hp : p ∈ objSet m k v) : p = (k, v) ∨ p ∈ m := by
  induction m with
  | nil => simpa [objSet] using hp
  | cons q rest ih =>
    obtain ⟨k₀, v₀⟩ := q
    by_cases hk : k₀ = k
    · rw [objSet, if_pos hk] at hp
      rcases List.mem_cons.mp hp with hp | hp
      · exact Or.inl hp
      · exact Or.inr (List.mem_cons_of_mem _ hp)
    · rw [objSet, if_neg hk] at hp
      rcases List.mem_cons.mp hp with hp | hp
      · exact Or.inr (hp ▸ List.mem_cons_self _ _)
      · rcases ih hp with hp | hp
        · exact Or.inl hp
        · exact Or.inr (List.mem_cons_of_mem _ hp)

/-- Every binding of the mappings accumulated by the index.js loop is an
initial binding or was written by a visited position holding a record with
a non-falsy identity: its key is that record's id, and in the rankings
mapping its value is that position's rank. -/
theorem idxLoop_maps (prevR : List (String × Nat)) (prevC : List (String × String))
    (fetched : List Collection) (is : List Nat) (accR : List (String × Nat))
    (accC : List (String × String)) (imgs : List RenderedImage) :
    (∀ p ∈ (idxLoop prevR prevC fetched is accR accC imgs).1,
      p ∈ accR ∨ ∃ j ∈ is, ∃ c cid, fetched[j]? = some c ∧ c.id = some cid ∧
        cid ≠ "" ∧ p.1 = cid ∧ p.2 = j + 1) ∧
    (∀ p ∈ (idxLoop prevR prevC fetched is accR accC imgs).2.1,
      p ∈ accC ∨ ∃ j ∈ is, ∃ c cid, fetched[j]? = some c ∧ c.id = some cid ∧
        cid ≠ "" ∧ p.1 = cid) := by
  induction is generalizing accR accC imgs with
  | nil =>
    exact ⟨fun p hp => Or.inl (by simpa [idxLoop] using hp),
      fun p hp => Or.inl (by simpa [idxLoop] using hp)⟩
  | cons i rest ih =>
    have hskip : ∀ accR₂ accC₂ imgs₂,
        (∀ p ∈ (idxLoop prevR prevC fetched rest accR₂ accC₂ imgs₂).1,
          p ∈ accR₂ ∨ ∃ j ∈ i :: rest, ∃ c cid, fetched[j]? = some c ∧
            c.id = some cid ∧ cid ≠ "" ∧ p.1 = cid ∧ p.2 = j + 1) ∧
        (∀ p ∈ (idxLoop prevR prevC fetched rest accR₂ accC₂ imgs₂).2.1,
          p ∈ accC₂ ∨ ∃ j ∈ i :: rest, ∃ c cid, fetched[j]? = some c ∧
            c.id = some cid ∧ cid ≠ "" ∧ p.1 = cid) := by
      intro accR₂ accC₂ imgs₂
      obtain ⟨ihR, ihC⟩ := ih accR₂ accC₂ imgs₂
      constructor
      · intro p hp
        rcases ihR p hp with h | ⟨j, hj, h2⟩
        · exact Or.inl h
        · exact Or.inr ⟨j, List.mem_cons_of_mem _ hj, h2⟩
      · intro p hp
        rcases ihC p hp with h | ⟨j, hj, h2⟩
        · exact Or.inl h
        · exact Or.inr ⟨j, List.mem_cons_of_mem _ hj, h2⟩
    cases hf : fetched[i]? with
    | none =>
      have hstep : idxLoop prevR prevC fetched (i :: rest) accR accC imgs =
          idxLoop prevR prevC fetched rest accR accC imgs := by
        simp [idxLoop, hf]
      rw [hstep]
      exact hskip accR accC imgs
    | some c =>
      cases hid : c.id with
      | none =>
        have hstep : idxLoop prevR prevC fetched (i :: rest) accR accC imgs =
            idxLoop prevR prevC fetched rest accR accC imgs := by
          simp [idxLoop, hf, hid]
        rw [hstep]
        exact hskip accR accC imgs
      | some cid =>
        by_cases hcid : cid = ""
        · have hstep : idxLoop prevR prevC fetched (i :: rest) accR accC imgs =
              idxLoop prevR prevC fetched rest accR accC imgs := by
            simp [idxLoop, hf, hid, hcid]
          rw [hstep]
          exact hskip accR accC imgs
        · have hstep : idxLoop prevR prevC fetched (i :: rest) accR accC imgs =
              idxLoop prevR prevC fetched rest
                (objSet accR cid (i + 1))
                (objSet accC cid
                  (resolveColor (getRankMovement (i + 1) (objGet prevR cid))
                    (objGet prevC cid)))
                (imgs ++ [⟨i + 1,
                  resolveColor (getRankMovement (i + 1) (objGet prevR cid))
                    (objGet prevC cid),
                  jsOrDefaultStr c.name "Unknown"⟩]) := by
            simp [idxLoop, hf, hid, hcid]
          rw [hstep]
          obtain ⟨ihR, ihC⟩ := ih (objSet accR cid (i + 1))
            (objSet accC cid
              (resolveColor (getRankMovement (i + 1) (objGet prevR cid))
                (objGet prevC cid)))
            (imgs ++ [⟨i + 1,
              resolveColor (getRankMovement (i + 1) (objGet prevR cid))
                (objGet prevC cid),
              jsOrDefaultStr c.name "Unknown"⟩])
          constructor
          · intro p hp
            rcases ihR p hp with h | ⟨j, hj, h2⟩
            · rcases mem_objSet _ _ _ _ h with hp2 | hp2
              · refine Or.inr ⟨i, List.mem_cons_self _ _, c, cid, hf, hid, hcid, ?_, ?_⟩
                · rw [hp2]
                · rw [hp2]
              · exact Or.inl hp2
            · exact Or.inr ⟨j, List.mem_cons_of_mem _ hj, h2⟩
          · intro p hp
            rcases ihC p hp with h | ⟨j, hj, h2⟩
            · rcases mem_objSet _ _ _ _ h with hp2 | hp2
              · exact Or.inr ⟨i, List.mem_cons_self _ _, c, cid, hf, hid, hcid, by rw [hp2]⟩
              · exact Or.inl hp2
            · exact Or.inr ⟨j, List.mem_cons_of_mem _ hj, h2⟩

/-- C8 amended: in the index.js cycle a record with an absent identity
field is skipped — no image is keyed by its rank and no persisted rank or
color entry is contributed by it (its position's rank appears nowhere in
the persisted rankings, and every persisted binding is keyed by the id of
some in-range record with a non-falsy identity) — while every other
in-range record with a usable identity still gets an image keyed by its
own rank; the working_redGreen.js cycle instead processes such a record
under the coerced key "undefined". -/
theorem missingId_skipped (fetched : List Collection) (st : IndexState)
    (i : Nat) (c : Collection)
    (hi : fetched[i]? = some c) (hid : c.id = none) :
    (∀ img ∈ (updateRankingsIndex fetched st).2, img.tokenId ≠ i + 1) ∧
    (∀ p ∈ (updateRankingsIndex fetched st).1.prevRankings, p.2 ≠ i + 1) ∧
    (∀ p ∈ (updateRankingsIndex fetched st).1.prevRankings,
      ∃ j c₂ cid, j < min fetched.length 100 ∧ fetched[j]? = some c₂ ∧
        c₂.id = some cid ∧ cid ≠ "" ∧ p.1 = cid) ∧
    (∀ p ∈ (updateRankingsIndex fetched st).1.prevColors,
      ∃ j c₂ cid, j < min fetched.length 100 ∧ fetched[j]? = some c₂ ∧
        c₂.id = some cid ∧ cid ≠ "" ∧ p.1 = cid) ∧
    (∀ j c₂ cid, j < min fetched.length 100 → fetched[j]? = some c₂ →
      c₂.id = some cid → cid ≠ "" →
      ∃ img ∈ (updateRankingsIndex fetched st).2, img.tokenId = j + 1) := by
  have hlt : i < fetched.length := by
    rcases List.getElem?_eq_some.mp hi with ⟨h, _⟩
    exact h
  have hlen : ¬ (fetched.length = 0) := by omega
  have hstate : (updateRankingsIndex fetched st).1.prevRankings =
      (idxLoop st.prevRankings st.prevColors fetched
        (List.range (min fetched.length 100)) [] [] []).1 ∧
      (updateRankingsIndex fetched st).1.prevColors =
      (idxLoop st.prevRankings st.prevColors fetched
        (List.range (min fetched.length 100)) [] [] []).2.1 ∧
      (updateRankingsIndex fetched st).2 =
      (idxLoop st.prevRankings st.prevColors fetched
        (List.range (min fetched.length 100)) [] [] []).2.2 := by
    unfold updateRankingsIndex
    rw [if_neg hlen]
    split
    rename_i newR newC imgs heq
    rw [heq]
    exact ⟨rfl, rfl, rfl⟩
  have hmaps := idxLoop_maps st.prevRankings st.prevColors fetched
    (List.range (min fetched.length 100)) [] [] []
  have himgs : (updateRankingsIndex fetched st).2 =
      (List.range (min fetched.length 100)).filterMap
        (renderAt st.prevRankings st.prevColors fetched) := by
    rw [hstate.2.2]
    simpa using idxLoop_images st.prevRankings st.prevColors fetched
      (List.range (min fetched.length 100)) [] [] []
  refine ⟨?_, ?_, ?_, ?_, ?_⟩
  · intro img hmem htok
    rw [himgs] at hmem
    obtain ⟨j, _, hj⟩ := List.mem_filterMap.mp hmem
    have hj1 : img.tokenId = j + 1 := renderAt_tokenId _ _ _ _ _ hj
    have hji : j = i := by omega
    subst hji
    unfold renderAt at hj
    rw [hi] at hj
    simp [hid] at hj
  · intro p hp hpv
    rw [hstate.1] at hp
    rcases hmaps.1 p hp with h | ⟨j, _, c₂, cid, hfj, hid₂, _, _, hv⟩
    · exact absurd h (List.not_mem_nil p)
    · have hji : j = i := by omega
      subst hji
      rw [hi] at hfj
      cases hfj
      rw [hid] at hid₂
      exact Option.noConfusion hid₂
  · intro p hp
    rw [hstate.1] at hp
    rcases hmaps.1 p hp with h | ⟨j, hjr, c₂, cid, hfj, hid₂, hcid, hk, _⟩
    · exact absurd h (List.not_mem_nil p)
    · exact ⟨j, c₂, cid, List.mem_range.mp hjr, hfj, hid₂, hcid, hk⟩
  · intro p hp
    rw [hstate.2.1] at hp
    rcases hmaps.2 p hp with h | ⟨j, hjr, c₂, cid, hfj, hid₂, hcid, hk⟩
    · exact absurd h (List.not_mem_nil p)
    · exact ⟨j, c₂, cid, List.mem_range.mp hjr, hfj, hid₂, hcid, hk⟩
  · intro j c₂ cid hj hfj hid₂ hcid
    refine ⟨⟨j + 1,
      resolveColor (getRankMovement (j + 1) (objGet st.prevRankings cid))
        (objGet st.prevColors cid),
      jsOrDefaultStr c₂.name "Unknown"⟩, ?_, rfl⟩
    rw [himgs]
    apply List.mem_filterMap.mpr
    refine ⟨j, List.mem_range.mpr hj, ?_⟩
    unfold renderAt
    rw [hfj]
    simp [hid₂, hcid]

/-- A two-record fetch whose first record lacks an identity field. -/
def c8Fetched : List Collection :=
  [{ id := none, name := some "X" }, { id := some "b", name := none }]

/-- An empty index.js state. -/
def c8State : IndexState :=
  { prevRankings := [], prevColors := [], latest := [] }

/-- Witness for `missingId_skipped`: a two-record fetch whose first record
lacks an identity field, against an empty state. -/
theorem missingId_skipped_witness :
    (c8Fetched[0]? = some { id := none, name := some "X" } ∧
      ({ id := none, name := some "X" } : Collection).id = none) ∧
    ((∀ img ∈ (updateRankingsIndex c8Fetched c8State).2, img.tokenId ≠ 0 + 1) ∧
    (∀ p ∈ (updateRankingsIndex c8Fetched c8State).1.prevRankings, p.2 ≠ 0 + 1) ∧
    (∀ p ∈ (updateRankingsIndex c8Fetched c8State).1.prevRankings,
      ∃ j c₂ cid, j < min c8Fetched.length 100 ∧ c8Fetched[j]? = some c₂ ∧
        c₂.id = some cid ∧ cid ≠ "" ∧ p.1 = cid) ∧
    (∀ p ∈ (updateRankingsIndex c8Fetched c8State).1.prevColors,
      ∃ j c₂ cid, j < min c8Fetched.length 100 ∧ c8Fetched[j]? = some c₂ ∧
        c₂.id = some cid ∧ cid ≠ "" ∧ p.1 = cid) ∧
    (∀ j c₂ cid, j < min c8Fetched.length 100 → c8Fetched[j]? = some c₂ →
      c₂.id = some cid → cid ≠ "" →
      ∃ img ∈ (updateRankingsIndex c8Fetched c8State).2, img.tokenId = j + 1)) :=
  ⟨⟨rfl, rfl⟩,
    missingId_skipped c8Fetched c8State 0 { id := none, name := some "X" } rfl rfl⟩

/-- A 100-record fetch whose first record lacks an identity field. -/
def rgCexFetched : List Collection :=
  { id := none, name := some "X" } :: List.replicate 99 { id := some "k", name := none }

/-- C8 counterexample: working_redGreen.js does not skip a record lacking
an identity field — the completed cycle renders the rank-1 image for it
and persists its rank and color under the coerced key "undefined". -/
theorem missingId_processed_rg :
    (updateRankingsRG rgCexFetched [] []).1.head? = some ⟨1, "green", "X"⟩ ∧
    (updateRankingsRG rgCexFetched [] []).2 =
      Except.ok ([("undefined", 1), ("k", 100)],
        [("undefined", "green"), ("k", "green")]) :=
  ⟨rfl, rfl⟩

end RankCheck
